import Mathlib

/-!
The resumable fetcher and the download coordinator of gopher-get.

A shallow embedding of `main.go`.  The file system, the HTTP client and the
progress indicator are collaborators of `downloadFile`; they are made explicit
as a file-system state and an environment record, so that `downloadFile`
becomes a pure function from the state before to the state after.
-/

namespace GopherGet

/-! ## Machine integers -/

/-- Two's-complement wrap of an integer into the range of a Go `int64`. -/
def wrapInt64 (i : Int) : Int := (i + 2 ^ 63) % 2 ^ 64 - 2 ^ 63

/-! ## `path.Base` -/

/-- The loop of `path.Base` that removes trailing slashes. -/
def stripTrailingSlashes (cs : List Char) : List Char :=
  (cs.reverse.dropWhile (fun c => c == '/')).reverse

/-- The text after the last slash (the whole text when there is no slash). -/
def afterLastSlash (cs : List Char) : List Char :=
  (cs.reverse.takeWhile (fun c => c != '/')).reverse

/-- Go's `path.Base`: `"."` for the empty string, otherwise trailing slashes
are removed and the text after the last remaining slash is returned, `"/"`
when nothing remains. -/
def pathBase (p : String) : String :=
  if p.data = [] then "."
  else
    let q := afterLastSlash (stripTrailingSlashes p.data)
    if q = [] then "/" else String.mk q

/-! ## File system -/

/-- Contents of a file. -/
abbrev Bytes := List UInt8

/-- The working directory: a partial map from file names to contents. -/
abbrev FS := String → Option Bytes

/-- The size reported by `os.Stat`, when the file exists. -/
def FS.statSize (fs : FS) (name : String) : Option Int :=
  (fs name).map (fun c => (c.length : Int))

/-- The file system with `name` holding `content`. -/
def FS.write (fs : FS) (name : String) (content : Bytes) : FS :=
  fun n => if n = name then some content else fs n

/-- The two flag sets `downloadFile` opens the destination with:
`O_CREATE|O_WRONLY|O_APPEND` and `O_CREATE|O_WRONLY|O_TRUNC`. -/
inductive OpenFlags where
  | createAppend
  | createTrunc
  deriving DecidableEq, Repr

/-! ## HTTP -/

/-- The request `downloadFile` builds: method, URL and the `Range` header. -/
structure Request where
  method : String
  url : String
  range : Option String
  deriving DecidableEq, Repr

/-- The response as the client sees it.  `contentLength` is `-1` when the
server declared none; `body` is what the body reader yields and `bodyErr` the
error (other than end of file) that ends the stream, if any. -/
structure Response where
  statusCode : Int
  status : String
  contentLength : Int
  body : Bytes
  bodyErr : Option String

/-- The errors `downloadFile` returns, by the statement that returns them. -/
inductive Err where
  | request (msg : String)
  | transport (msg : String)
  | status (statusText : String)
  | openFile (msg : String)
  | copy (msg : String)
  deriving DecidableEq, Repr

/-- The text of an error; the status error is
`fmt.Errorf("server returned: %s", resp.Status)`. -/
def Err.message : Err → String
  | .request msg => msg
  | .transport msg => msg
  | .status statusText => "server returned: " ++ statusText
  | .openFile msg => msg
  | .copy msg => msg

/-- The collaborators of one download attempt: validation of the URL by
`http.NewRequestWithContext`, the client's `Do` (deadline included), the
failure of `os.OpenFile` for a name, a failure of a write to the opened
file after a given number of bytes, and the number of bytes each successive
`Read` of the body yields (the buffer size of `io.Copy` once the list is
used up). -/
structure Env where
  newRequestErr : String → Option String
  roundTrip : Request → Except String Response
  openErr : String → Option String
  writeFault : Option (Nat × String)
  reads : List Nat := []

/-! ## Progress indicator -/

/-- The progress indicator of the progress-bar library `progressbar/v3`, which
is not part of this repository: the expected total handed to it (`-1` is the
library's indeterminate total), the progress so far and a description. -/
structure Bar where
  max : Int
  current : Int
  description : String
  deriving DecidableEq, Repr

/-- The call `progressbar.DefaultBytes(max, description)`. -/
def Bar.defaultBytes (max : Int) (description : String) : Bar :=
  { max := max, current := 0, description := description }

/-- The call `bar.Add64(n)` of the library, with the error it returns: an
indeterminate indicator takes any count; a total of `0` is refused; otherwise
the count is added while the progress is below the total, and a progress
beyond the total is the error `current number exceeds max`. -/
def Bar.add64 (b : Bar) (n : Int) : Bar × Option String :=
  if b.max = -1 then ({ b with current := wrapInt64 (b.current + n) }, none)
  else if b.max = 0 then (b, some "max must be greater than 0")
  else
    let current := if b.current < b.max then wrapInt64 (b.current + n) else b.current
    ({ b with current := current },
      if current > b.max then some "current number exceeds max" else none)

/-- The call `bar.Write(buf)` of the library: `Add` of the length of `buf`. -/
def Bar.write (b : Bar) (buf : Bytes) : Bar × Option String :=
  b.add64 (buf.length : Int)

/-! ## `downloadFile` -/

/-- What one call of `downloadFile` leaves behind: the returned error (`none`
is `nil`), the file system, the request handed to the client, the progress
indicator as it stands when streaming starts, and the lines printed. -/
structure Outcome where
  err : Option Err
  fs : FS
  sent : Option Request
  bar : Option Bar
  stdout : List String

/-- Step 1 of `downloadFile`: the local size, `0` when `os.Stat` fails. -/
def startByteOf (fs : FS) (fileName : String) : Int :=
  match fs.statSize fileName with
  | some size => size
  | none => 0

/-- Steps 2 and 3: the GET request, with a `Range` header when there is local
data. -/
def buildRequest (url : String) (startByte : Int) : Request :=
  { method := "GET"
    url := url
    range := if startByte > 0 then some ("bytes=" ++ toString startByte ++ "-") else none }

/-- The call `os.OpenFile(fileName, flags, 0644)`: fails when the environment
says so, otherwise creates the file when absent and empties it under
`O_TRUNC`. -/
def openFile (env : Env) (fs : FS) (fileName : String) (flags : OpenFlags) : Except Err FS :=
  match env.openErr fileName with
  | some msg => .error (.openFile msg)
  | none =>
    match flags with
    | .createAppend => .ok (fs.write fileName ((fs fileName).getD []))
    | .createTrunc => .ok (fs.write fileName [])

/-- The buffer of `io.Copy`: 32 KiB. -/
def copyBufferSize : Nat := 32768

/-- What `io.Copy` leaves behind: the bytes that reached the file, the
progress indicator, and the error returned. -/
structure Copied where
  written : Bytes
  bar : Bar
  err : Option Err

/-- The number of bytes the next `Read` yields: at least one, at most the
buffer of `io.Copy`. -/
def nextRead (reads : List Nat) : Nat :=
  match reads with
  | r :: _ => Nat.max 1 (Nat.min r copyBufferSize)
  | [] => copyBufferSize

/-- The write fault that strikes before `upTo` bytes have reached the file. -/
def faultBefore (fault : Option (Nat × String)) (upTo : Nat) : Option (Nat × String) :=
  match fault with
  | some (k, msg) => if k < upTo then some (k, msg) else none
  | none => none

/-- The loop of `io.Copy` over `io.MultiWriter(out, bar)`: each buffer read
from the body is written to the file, then to the progress indicator; the
first error of either ends the copy.  The first argument bounds the number of
rounds; the length of the body is enough, as every round takes at least one
byte. -/
def copyLoop (fault : Option (Nat × String)) :
    Nat → List Nat → Bytes → Bytes → Bar → Copied
  | 0, _, _, written, bar => { written := written, bar := bar, err := none }
  | fuel + 1, reads, remaining, written, bar =>
    if remaining = [] then { written := written, bar := bar, err := none }
    else
      let buf := remaining.take (nextRead reads)
      match faultBefore fault (written.length + buf.length) with
      | some (k, msg) =>
        { written := written ++ buf.take (k - written.length), bar := bar
          err := some (.copy msg) }
      | none =>
        match bar.write buf with
        | (bar1, some msg) => { written := written ++ buf, bar := bar1, err := some (.copy msg) }
        | (bar1, none) =>
          copyLoop fault fuel reads.tail (remaining.drop (nextRead reads)) (written ++ buf) bar1

/-- The call `io.Copy(io.MultiWriter(out, bar), resp.Body)`: the loop over
the body, then the error that ended the body, if any. -/
def ioCopy (env : Env) (resp : Response) (bar : Bar) : Copied :=
  let copied := copyLoop env.writeFault resp.body.length env.reads resp.body [] bar
  match copied.err with
  | some _ => copied
  | none => { copied with err := resp.bodyErr.map Err.copy }

/-- Step 6 of `downloadFile`: the progress indicator is created with the
declared content length plus the resume offset as its total and advanced by
the resume offset; the error `Add64` returns is dropped. -/
def barAtStart (resp : Response) (startByte : Int) (fileName : String) : Bar :=
  ((Bar.defaultBytes (wrapInt64 (resp.contentLength + startByte))
    ("downloading " ++ fileName)).add64 startByte).1

/-- The function `downloadFile(ctx, url)` of `main.go`. -/
def downloadFile (env : Env) (url : String) (fs : FS) : Outcome :=
  let fileName := pathBase url
  let startByte := startByteOf fs fileName
  match env.newRequestErr url with
  | some msg => { err := some (.request msg), fs := fs, sent := none, bar := none, stdout := [] }
  | none =>
    let req := buildRequest url startByte
    match env.roundTrip req with
    | .error msg =>
      { err := some (.transport msg), fs := fs, sent := some req, bar := none, stdout := [] }
    | .ok resp =>
      if resp.statusCode = 416 then
        { err := none, fs := fs, sent := some req, bar := none, stdout := [] }
      else if resp.statusCode ≠ 200 ∧ resp.statusCode ≠ 206 then
        { err := some (.status resp.status), fs := fs, sent := some req, bar := none, stdout := [] }
      else
        let flags := if resp.statusCode = 206 then OpenFlags.createAppend else OpenFlags.createTrunc
        let printed :=
          if resp.statusCode = 206 then
            ["Resuming " ++ fileName ++ " from byte " ++ toString startByte ++ "...\n"]
          else []
        let startByte := if resp.statusCode = 206 then startByte else 0
        match openFile env fs fileName flags with
        | .error e => { err := some e, fs := fs, sent := some req, bar := none, stdout := printed }
        | .ok fs1 =>
          let bar := barAtStart resp startByte fileName
          let copied := ioCopy env resp bar
          { err := copied.err
            fs := fs1.write fileName ((fs1 fileName).getD [] ++ copied.written)
            sent := some req
            bar := some bar
            stdout := printed }

/-! ## The coordinator -/

/-- The struct `Result` of `main.go`. -/
structure Result where
  url : String
  err : Option Err
  deriving DecidableEq, Repr

/-- Where a `worker` goroutine stands: at the receive of `for url := range
jobs`, inside `downloadFile`, at the send `results <- Result{...}`, or
returned (its deferred `wg.Done()` has run). -/
inductive WorkerState where
  | receiving
  | downloading (url : String)
  | sending (res : Result)
  | exited
  deriving DecidableEq, Repr

/-- The state of the pool set up by `main`: the two buffered channels, the
wait group, the workers, and how far `main` itself has come. -/
structure Pool where
  capacity : Nat
  toSpawn : Nat
  toFeed : List String
  jobs : List String
  jobsClosed : Bool
  workers : List WorkerState
  wg : Nat
  closerStarted : Bool
  results : List Result
  resultsClosed : Bool
  summary : List Result
  finished : Bool
  deriving DecidableEq, Repr

/-- One atomic step of one goroutine. -/
inductive Action where
  | spawn
  | feed
  | closeJobs
  | startCloser
  | receive (w : Nat)
  | download (w : Nat) (err : Option Err)
  | send (w : Nat)
  | exit (w : Nat)
  | closeResults
  | collect
  | finish
  deriving DecidableEq, Repr

/-- The function `main` up to the creation of the channels: `none` when no URL
was given (the usage message), otherwise the pool before the first worker is
started. -/
def main (urls : List String) (workerCount : Int) : Option Pool :=
  if urls.length = 0 then none
  else some
    { capacity := urls.length
      toSpawn := workerCount.toNat
      toFeed := urls
      jobs := []
      jobsClosed := false
      workers := []
      wg := 0
      closerStarted := false
      results := []
      resultsClosed := false
      summary := []
      finished := false }

/-- The step `a` from the state `s`, `none` when `a` cannot happen in `s`
(the goroutine is elsewhere, or it is blocked on its channel; a send on a
closed channel, a panic in Go, is no step either).  The call of `downloadFile`
is one step that may return any error: its effect on the working directory is
the subject of `downloadFile` above, and its deadline is what makes it return.

* `spawn`: `wg.Add(1); go worker(...)` of the loop of step 3;
* `feed`: `jobs <- url` of the loop of step 4;
* `closeJobs`: `close(jobs)`;
* `startCloser`: the `go func()` of step 5;
* `receive w`: worker `w` takes the next URL from `jobs`;
* `download w err`: the `downloadFile` call of worker `w` returns `err`;
* `send w`: worker `w` sends its `Result`;
* `exit w`: the `range` loop of worker `w` ends on the closed, empty `jobs`
  and `wg.Done()` runs;
* `closeResults`: `wg.Wait()` returns and `close(results)` runs;
* `collect`: the loop of step 6 receives a result and prints its line;
* `finish`: the loop of step 6 ends on the closed, empty `results`. -/
def step (s : Pool) : Action → Option Pool
  | .spawn =>
    if 0 < s.toSpawn then
      some { s with toSpawn := s.toSpawn - 1, wg := s.wg + 1
                    workers := s.workers ++ [WorkerState.receiving] }
    else none
  | .feed =>
    if s.toSpawn = 0 ∧ s.jobsClosed = false ∧ s.jobs.length < s.capacity then
      match s.toFeed with
      | url :: rest => some { s with toFeed := rest, jobs := s.jobs ++ [url] }
      | [] => none
    else none
  | .closeJobs =>
    if s.toSpawn = 0 ∧ s.toFeed = [] ∧ s.jobsClosed = false then
      some { s with jobsClosed := true }
    else none
  | .startCloser =>
    if s.jobsClosed = true ∧ s.closerStarted = false then
      some { s with closerStarted := true }
    else none
  | .receive w =>
    match s.workers[w]?, s.jobs with
    | some WorkerState.receiving, url :: rest =>
      some { s with jobs := rest, workers := s.workers.set w (WorkerState.downloading url) }
    | _, _ => none
  | .download w err =>
    match s.workers[w]? with
    | some (WorkerState.downloading url) =>
      some { s with workers := s.workers.set w (WorkerState.sending { url := url, err := err }) }
    | _ => none
  | .send w =>
    match s.workers[w]? with
    | some (WorkerState.sending res) =>
      if s.resultsClosed = false ∧ s.results.length < s.capacity then
        some { s with results := s.results ++ [res]
                      workers := s.workers.set w WorkerState.receiving }
      else none
    | _ => none
  | .exit w =>
    match s.workers[w]? with
    | some WorkerState.receiving =>
      if s.jobs = [] ∧ s.jobsClosed = true then
        some { s with wg := s.wg - 1, workers := s.workers.set w WorkerState.exited }
      else none
    | _ => none
  | .closeResults =>
    if s.closerStarted = true ∧ s.wg = 0 ∧ s.resultsClosed = false then
      some { s with resultsClosed := true }
    else none
  | .collect =>
    if s.closerStarted = true ∧ s.finished = false then
      match s.results with
      | res :: rest => some { s with results := rest, summary := s.summary ++ [res] }
      | [] => none
    else none
  | .finish =>
    if s.closerStarted = true ∧ s.finished = false ∧ s.results = [] ∧ s.resultsClosed = true then
      some { s with finished := true }
    else none

/-- A schedule: the steps taken, in order. -/
def run (s : Pool) : List Action → Option Pool
  | [] => some s
  | a :: rest =>
    match step s a with
    | some s1 => run s1 rest
    | none => none

/-- The URL a worker holds: the job it took and has not yet answered. -/
def WorkerState.held : WorkerState → List String
  | .downloading url => [url]
  | .sending res => [res.url]
  | _ => []

/-- The jobs in progress, over all workers. -/
def heldBy : List WorkerState → List String
  | [] => []
  | w :: ws => w.held ++ heldBy ws

/-- The number of workers that have not returned. -/
def running : List WorkerState → Nat
  | [] => 0
  | w :: ws => (if w = WorkerState.exited then 0 else 1) + running ws

/-- The queued jobs: those `main` has yet to send and those in the channel. -/
def Pool.queued (s : Pool) : List String := s.toFeed ++ s.jobs

/-- The jobs in progress. -/
def Pool.inProgress (s : Pool) : List String := heldBy s.workers

/-- The URLs of the results produced: those the collector has consumed and
those waiting in the channel. -/
def Pool.produced (s : Pool) : List String := (s.summary ++ s.results).map Result.url

/-- A schedule of three jobs on two workers that runs to the end. -/
def demoSchedule : List Action :=
  [.spawn, .spawn, .feed, .receive 0, .feed, .feed, .closeJobs, .receive 1,
   .download 1 none, .send 1, .receive 1, .startCloser, .collect,
   .download 0 (some (Err.status "404 Not Found")), .send 0, .exit 0,
   .download 1 none, .send 1, .exit 1, .closeResults, .collect, .collect, .finish]

/-- What holds of the pool in every state it can reach. -/
structure PoolInv (urls : List String) (workerCount : Int) (s : Pool) : Prop where
  conserve : (↑s.queued + ↑s.inProgress + ↑s.produced : Multiset String) = ↑urls
  capacity_eq : s.capacity = urls.length
  wg_eq : s.wg = running s.workers
  spawned : s.workers.length + s.toSpawn = workerCount.toNat
  closed_fed : s.jobsClosed = true → s.toSpawn = 0 ∧ s.toFeed = []
  closer_after : s.closerStarted = true → s.jobsClosed = true
  exited_drained : WorkerState.exited ∈ s.workers → s.jobs = [] ∧ s.jobsClosed = true
  closed_done : s.resultsClosed = true → s.closerStarted = true ∧ s.wg = 0
  finished_drained : s.finished = true → s.resultsClosed = true ∧ s.results = []

/-- The steps a worker in the given state still owes for the job it holds. -/
def WorkerState.weight : WorkerState → Nat
  | .receiving => 1
  | .downloading _ => 4
  | .sending _ => 3
  | .exited => 0

/-- The sum of the weights of the workers. -/
def weights : List WorkerState → Nat
  | [] => 0
  | w :: ws => w.weight + weights ws

/-- A bound on the number of steps the pool can still take. -/
def Pool.fuel (s : Pool) : Nat :=
  2 * s.toSpawn + 5 * s.toFeed.length + 4 * s.jobs.length + weights s.workers
    + s.results.length
    + (if s.jobsClosed then 0 else 1) + (if s.closerStarted then 0 else 1)
    + (if s.resultsClosed then 0 else 1) + (if s.finished then 0 else 1)

/-- The three jobs of the demonstration schedule. -/
def demoUrls : List String := ["http://h/a", "http://h/b", "http://h/c"]

/-- The pool of `demoUrls` with two workers, before the first step. -/
def demoStart : Pool :=
  { capacity := 3, toSpawn := 2, toFeed := demoUrls, jobs := [], jobsClosed := false
    workers := [], wg := 0, closerStarted := false, results := [], resultsClosed := false
    summary := [], finished := false }

/-- The pool after `demoSchedule`: everything drained, the three results in
the summary in the order of completion. -/
def demoEnd : Pool :=
  { capacity := 3, toSpawn := 0, toFeed := [], jobs := [], jobsClosed := true
    workers := [WorkerState.exited, WorkerState.exited], wg := 0, closerStarted := true
    results := [], resultsClosed := true
    summary := [{ url := "http://h/b", err := none },
                { url := "http://h/a", err := some (Err.status "404 Not Found") },
                { url := "http://h/c", err := none }]
    finished := true }

/-! ## The URL path, as the specification reads it -/

/-- The size `S` of the destination file, `0` when it does not exist. -/
def localSize (fs : FS) (fileName : String) : Nat :=
  match fs fileName with
  | some content => content.length
  | none => 0

/-- The request a client sends for `url` with the header `Range: bytes=k-`. -/
def rangeRequest (url : String) (k : Nat) : Request :=
  { method := "GET", url := url, range := some ("bytes=" ++ Nat.repr k ++ "-") }

/-- The status error exactly as the specification words it:
`server returned <status>`. -/
def statusMessageAsSpecified (resp : Response) : String :=
  "server returned " ++ resp.status

/-- What the HTTP client guarantees of a response whose body it delivers to
the end: the content length is `-1` (none declared) or the length of the body,
an `int64`. -/
def Response.LengthAgrees (resp : Response) : Prop :=
  resp.contentLength = -1 ∨
    (resp.contentLength = (resp.body.length : Int) ∧ resp.contentLength < 2 ^ 63)

/-- A server that honours ranges over the resource `R`: 200 with `R` when
there is no `Range` header, 206 with `R[k..]` for `bytes=k-` with `k < |R|`,
416 for `bytes=k-` with `k ≥ |R|`; a body is delivered to the end, under no
content length or its own. -/
def HonorsRanges (R : Bytes) (env : Env) : Prop :=
  (∀ req, req.range = none →
    ∃ resp, env.roundTrip req = .ok resp ∧ resp.statusCode = 200 ∧ resp.body = R ∧
      resp.bodyErr = none ∧ resp.LengthAgrees) ∧
  (∀ req k, req.range = some ("bytes=" ++ Nat.repr k ++ "-") → k < R.length →
    ∃ resp, env.roundTrip req = .ok resp ∧ resp.statusCode = 206 ∧ resp.body = R.drop k ∧
      resp.bodyErr = none ∧ resp.LengthAgrees) ∧
  (∀ req k, req.range = some ("bytes=" ++ Nat.repr k ++ "-") → R.length ≤ k →
    ∃ resp, env.roundTrip req = .ok resp ∧ resp.statusCode = 416)

/-- A server that ignores ranges: 200 with the whole resource `R`, always,
delivered to the end, under no content length or its own. -/
def IgnoresRanges (R : Bytes) (env : Env) : Prop :=
  ∀ req, ∃ resp, env.roundTrip req = .ok resp ∧ resp.statusCode = 200 ∧ resp.body = R ∧
    resp.bodyErr = none ∧ resp.LengthAgrees

/-- The progress indicator takes `k` more bytes without an error: nothing is
left to write, or its total is indeterminate, or its progress plus `k` stays
within its total. -/
def Bar.Accepts (b : Bar) (k : Nat) : Prop :=
  k = 0 ∨ b.max = -1 ∨ (0 ≤ b.current ∧ b.current + (k : Int) ≤ b.max ∧ b.max < 2 ^ 63)

/-! ## Concrete scenarios -/

/-- The bytes of an ASCII string, Go's `[]byte(s)`. -/
def asciiBytes (s : String) : Bytes := s.data.map (fun c => UInt8.ofNat c.toNat)

/-- A working directory holding one file. -/
def singleFile (name : String) (content : Bytes) : FS :=
  fun n => if n = name then some content else none

/-- The handler of `TestDownloadResume`: the tail of the content with status
206 for `Range: bytes=6-`, the whole content with status 200 otherwise. -/
def resumeTestEnv : Env :=
  { newRequestErr := fun _ => none
    roundTrip := fun req =>
      if req.range = some "bytes=6-" then
        .ok { statusCode := 206, status := "206 Partial Content", contentLength := 13
              body := (asciiBytes "full-length-content").drop 6, bodyErr := none }
      else
        .ok { statusCode := 200, status := "200 OK", contentLength := 19
              body := asciiBytes "full-length-content", bodyErr := none }
    openErr := fun _ => none
    writeFault := none }

/-- The value of a sequence of decimal digits. -/
def digitsValue (cs : List Char) : Nat := cs.foldl (fun a c => 10 * a + (c.toNat - 48)) 0

/-- The offset `k` of a header value `bytes=k-`. -/
def parseRangeStart (h : String) : Option Nat :=
  match h.data with
  | 'b' :: 'y' :: 't' :: 'e' :: 's' :: '=' :: rest =>
    match rest.reverse with
    | '-' :: ds =>
      if ds ≠ [] ∧ ds.all Char.isDigit = true then some (digitsValue ds.reverse) else none
    | _ => none
  | _ => none

/-- A range-honouring server for the resource `R`, in the manner of the
handler of `TestDownloadResume` but for every offset: 206 with the tail for
an offset inside `R`, 416 for an offset at or past its end, 200 with the whole
of `R` when there is no usable `Range` header. -/
def rangeServerEnv (R : Bytes) : Env :=
  { newRequestErr := fun _ => none
    roundTrip := fun req =>
      match req.range.bind parseRangeStart with
      | some k =>
        if k < R.length then
          .ok { statusCode := 206, status := "206 Partial Content"
                contentLength := (R.length - k : Nat), body := R.drop k, bodyErr := none }
        else
          .ok { statusCode := 416, status := "416 Requested Range Not Satisfiable"
                contentLength := 0, body := [], bodyErr := none }
      | none =>
        .ok { statusCode := 200, status := "200 OK", contentLength := (R.length : Nat)
              body := R, bodyErr := none }
    openErr := fun _ => none
    writeFault := none }

/-- A server that answers every request with the given response. -/
def constEnv (resp : Response) : Env :=
  { newRequestErr := fun _ => none
    roundTrip := fun _ => .ok resp
    openErr := fun _ => none
    writeFault := none }

/-- The response of the handler of `TestDownloadFile`. -/
def fakeFileResponse : Response :=
  { statusCode := 200, status := "200 OK", contentLength := 17
    body := asciiBytes "fake file content", bodyErr := none }

/-- A 416 answer. -/
def notSatisfiableResponse : Response :=
  { statusCode := 416, status := "416 Requested Range Not Satisfiable", contentLength := 0
    body := [], bodyErr := none }

/-- A 404 answer. -/
def notFoundResponse : Response :=
  { statusCode := 404, status := "404 Not Found", contentLength := 9
    body := asciiBytes "not found", bodyErr := none }

/-- A 206 answer that declares the largest content length an `int64` holds. -/
def hugeLengthResponse : Response :=
  { statusCode := 206, status := "206 Partial Content", contentLength := 9223372036854775807
    body := [2, 3], bodyErr := none }

/-- A 206 answer with no declared content length (chunked transfer). -/
def chunkedPartialResponse : Response :=
  { statusCode := 206, status := "206 Partial Content", contentLength := -1
    body := (asciiBytes "full-length-content").drop 6, bodyErr := none }

/-- The server of `chunkedPartialResponse`, with a body that arrives four
bytes at a time. -/
def slowChunkedEnv : Env :=
  { newRequestErr := fun _ => none
    roundTrip := fun _ => .ok chunkedPartialResponse
    openErr := fun _ => none
    writeFault := none
    reads := [4, 4, 4, 4] }

/-- A 200 answer with no declared content length. -/
def chunkedFullResponse : Response :=
  { statusCode := 200, status := "200 OK", contentLength := -1
    body := asciiBytes "full-length-content", bodyErr := none }

/-! # Theorems -/

/-! ## Basic facts -/

theorem wrapInt64_of_range (i : Int) (h0 : -(2 ^ 63) ≤ i) (h1 : i < 2 ^ 63) :
    wrapInt64 i = i := by
  unfold wrapInt64
  have h : (i + 2 ^ 63) % 2 ^ 64 = i + 2 ^ 63 := Int.emod_eq_of_lt (by omega) (by omega)
  omega

theorem FS.write_self (fs : FS) (name : String) (c : Bytes) (h : fs name = some c) :
    fs.write name c = fs := by
  funext n
  by_cases hn : n = name
  · subst hn; simp [FS.write, h]
  · simp [FS.write, hn]

/-! ## The copy loop -/

theorem nextRead_pos (reads : List Nat) : 1 ≤ nextRead reads := by
  unfold nextRead
  cases reads with
  | nil => decide
  | cons r rs => exact Nat.le_max_left 1 _

theorem Bar.add64_accepts (b : Bar) (m k : Nat) (hm : 1 ≤ m) (hmk : m ≤ k) (h : b.Accepts k) :
    (b.add64 (m : Int)).2 = none ∧ (b.add64 (m : Int)).1.Accepts (k - m) := by
  rcases h with h | h | ⟨h0, h1, h2⟩
  · omega
  · simp [Bar.add64, h, Bar.Accepts]
  · have hmax1 : b.max ≠ -1 := by omega
    have hmax0 : b.max ≠ 0 := by omega
    have hlt : b.current < b.max := by omega
    have hw : wrapInt64 (b.current + (m : Int)) = b.current + (m : Int) :=
      wrapInt64_of_range _ (by omega) (by omega)
    have hle : ¬ (b.current + (m : Int) > b.max) := by omega
    simp only [Bar.add64, hmax1, hmax0, if_false, hlt, if_true, hw, hle]
    refine ⟨trivial, ?_⟩
    right; right
    have hsub : ((k - m : Nat) : Int) = (k : Int) - (m : Int) := by omega
    refine ⟨?_, ?_, h2⟩
    · show 0 ≤ b.current + (m : Int)
      omega
    · show b.current + (m : Int) + ((k - m : Nat) : Int) ≤ b.max
      omega

theorem copyLoop_all (fuel : Nat) : ∀ (reads : List Nat) (remaining written : Bytes) (bar : Bar),
    remaining.length ≤ fuel → bar.Accepts remaining.length →
    (copyLoop none fuel reads remaining written bar).written = written ++ remaining ∧
      (copyLoop none fuel reads remaining written bar).err = none := by
  induction fuel with
  | zero =>
    intro reads remaining written bar hlen _
    have : remaining = [] := List.length_eq_zero.mp (by omega)
    simp [copyLoop, this]
  | succ fuel ih =>
    intro reads remaining written bar hlen hacc
    by_cases hrem : remaining = []
    · simp [copyLoop, hrem]
    · have hpos : 0 < remaining.length := List.length_pos.mpr hrem
      have hn := nextRead_pos reads
      have hbuf1 : 1 ≤ (remaining.take (nextRead reads)).length := by
        simp only [List.length_take]; omega
      have hbuf2 : (remaining.take (nextRead reads)).length ≤ remaining.length := by
        simp only [List.length_take]; omega
      obtain ⟨he, hacc'⟩ := Bar.add64_accepts bar _ _ hbuf1 hbuf2 hacc
      have hdrop : (remaining.drop (nextRead reads)).length
          = remaining.length - (remaining.take (nextRead reads)).length := by
        simp only [List.length_drop, List.length_take]; omega
      have hih := ih reads.tail (remaining.drop (nextRead reads))
        (written ++ remaining.take (nextRead reads)) (bar.add64 _).1
        (by rw [hdrop]; omega) (by rw [hdrop]; exact hacc')
      have hw : bar.write (remaining.take (nextRead reads))
          = ((bar.add64 ((remaining.take (nextRead reads)).length : Int)).1, none) := by
        unfold Bar.write
        rw [← he]
      simp only [copyLoop, hrem, if_false, faultBefore, hw]
      rw [hih.1, hih.2, List.append_assoc, List.take_append_drop]
      exact ⟨rfl, rfl⟩

theorem copyLoop_fuel (fault : Option (Nat × String)) (fuel : Nat) :
    ∀ (reads : List Nat) (remaining written : Bytes) (bar : Bar), remaining.length ≤ fuel →
    copyLoop fault (fuel + 1) reads remaining written bar
      = copyLoop fault fuel reads remaining written bar := by
  induction fuel with
  | zero =>
    intro reads remaining written bar hlen
    have : remaining = [] := List.length_eq_zero.mp (by omega)
    simp [copyLoop, this]
  | succ fuel ih =>
    intro reads remaining written bar hlen
    have hn := nextRead_pos reads
    have hdrop : (remaining.drop (nextRead reads)).length ≤ fuel := by
      simp only [List.length_drop]; omega
    have hih := fun w b => ih reads.tail (remaining.drop (nextRead reads)) w b hdrop
    conv_lhs => unfold copyLoop
    conv_rhs => unfold copyLoop
    simp only [hih]

theorem copyLoop_err (fault : Option (Nat × String)) (fuel : Nat) :
    ∀ (reads : List Nat) (remaining written : Bytes) (bar : Bar) (e : Err),
    (copyLoop fault fuel reads remaining written bar).err = some e → ∃ msg, e = Err.copy msg := by
  induction fuel with
  | zero => intro reads remaining written bar e h; simp [copyLoop] at h
  | succ fuel ih =>
    intro reads remaining written bar e h
    unfold copyLoop at h
    split at h
    · simp at h
    · simp only [] at h
      split at h
      · simp only [Option.some.injEq] at h
        exact ⟨_, h.symm⟩
      · split at h
        · simp only [Option.some.injEq] at h
          exact ⟨_, h.symm⟩
        · exact ih _ _ _ _ e h

theorem ioCopy_err (env : Env) (resp : Response) (bar : Bar) (e : Err)
    (h : (ioCopy env resp bar).err = some e) : ∃ msg, e = Err.copy msg := by
  unfold ioCopy at h
  simp only [] at h
  split at h
  · rename_i e' he'
    rw [he'] at h
    simp only [Option.some.injEq] at h
    exact copyLoop_err _ _ _ _ _ _ e (h ▸ he')
  · simp only [Option.map_eq_some'] at h
    obtain ⟨msg, _, hm⟩ := h
    exact ⟨msg, hm.symm⟩

theorem ioCopy_all (env : Env) (resp : Response) (bar : Bar) (hwrite : env.writeFault = none)
    (hbodyErr : resp.bodyErr = none) (hacc : bar.Accepts resp.body.length) :
    (ioCopy env resp bar).written = resp.body ∧ (ioCopy env resp bar).err = none := by
  have h := copyLoop_all resp.body.length env.reads resp.body [] bar (le_refl _) hacc
  unfold ioCopy
  simp only [hwrite, h.2, hbodyErr, Option.map_none']
  simpa using h.1

theorem Bar.start_accepts (L : Int) (off k : Nat) (desc : String)
    (h : (L = -1 ∧ off = 0) ∨ (L = (k : Int) ∧ (k : Int) + (off : Int) < 2 ^ 63)) :
    ((Bar.defaultBytes (wrapInt64 (L + (off : Int))) desc).add64 (off : Int)).1.Accepts k := by
  rcases h with ⟨hL, hoff⟩ | ⟨hL, hb⟩
  · subst hL hoff
    have hw : wrapInt64 (-1) = -1 := by decide
    right; left
    simp [Bar.defaultBytes, Bar.add64, hw]
  · subst hL
    have hw : wrapInt64 ((k : Int) + (off : Int)) = (k : Int) + (off : Int) :=
      wrapInt64_of_range _ (by omega) hb
    have hmax1 : ¬ ((k : Int) + (off : Int) = -1) := by omega
    by_cases hk : k = 0
    · left; exact hk
    · have hmax0 : ¬ ((k : Int) + (off : Int) = 0) := by omega
      have hlt : (0 : Int) < (k : Int) + (off : Int) := by omega
      have hw0 : wrapInt64 (0 + (off : Int)) = (off : Int) := by
        rw [zero_add]
        exact wrapInt64_of_range _ (by omega) (by omega)
      right; right
      simp only [Bar.defaultBytes, Bar.add64, hw, hmax1, hmax0, if_false, hlt, if_true, hw0]
      refine ⟨?_, ?_, hb⟩
      · show (0 : Int) ≤ (off : Int)
        omega
      · show (off : Int) + (k : Int) ≤ (k : Int) + (off : Int)
        omega

/-! ## The fetcher -/

theorem startByteOf_eq_localSize (fs : FS) (name : String) :
    startByteOf fs name = (localSize fs name : Int) := by
  unfold startByteOf localSize FS.statSize
  cases fs name <;> simp

theorem buildRequest_pos (url : String) (S : Nat) (h : 0 < S) :
    buildRequest url (S : Int) = rangeRequest url S := by
  have h' : (0 : Int) < (S : Int) := by exact_mod_cast h
  simp only [buildRequest, rangeRequest, gt_iff_lt, h', if_true]
  rfl

theorem Bar.add64_max (b : Bar) (n : Int) : (b.add64 n).1.max = b.max := by
  unfold Bar.add64
  split
  · rfl
  · split <;> rfl

theorem barAtStart_max (resp : Response) (startByte : Int) (fileName : String) :
    (barAtStart resp startByte fileName).max = wrapInt64 (resp.contentLength + startByte) := by
  unfold barAtStart
  rw [Bar.add64_max]
  rfl

theorem barAtStart_current (resp : Response) (startByte : Int) (fileName : String)
    (h0 : 0 ≤ startByte) (h1 : 0 ≤ resp.contentLength)
    (h2 : resp.contentLength + startByte < 2 ^ 63) :
    (barAtStart resp startByte fileName).current = startByte := by
  have hw : wrapInt64 (resp.contentLength + startByte) = resp.contentLength + startByte :=
    wrapInt64_of_range _ (by omega) h2
  have hmax1 : ¬ (resp.contentLength + startByte = -1) := by omega
  unfold barAtStart
  simp only [Bar.defaultBytes, Bar.add64, hw, hmax1, if_false]
  by_cases hmax0 : resp.contentLength + startByte = 0
  · simp only [hmax0, if_true]
    omega
  · have hlt : (0 : Int) < resp.contentLength + startByte := by omega
    have hw0 : wrapInt64 (0 + startByte) = startByte := by
      rw [zero_add]
      exact wrapInt64_of_range _ (by omega) (by omega)
    simp only [hmax0, if_false, hlt, if_true, hw0]

theorem barAtStart_accepts (resp : Response) (off : Nat) (fileName : String)
    (h : (resp.contentLength = -1 ∧ off = 0) ∨
      (resp.contentLength = (resp.body.length : Int) ∧
        (resp.body.length : Int) + (off : Int) < 2 ^ 63)) :
    (barAtStart resp (off : Int) fileName).Accepts resp.body.length :=
  Bar.start_accepts resp.contentLength off resp.body.length _ h

theorem downloadFile_appended (env : Env) (url : String) (fs : FS) (resp : Response)
    (hreq : env.newRequestErr url = none)
    (hresp : env.roundTrip (buildRequest url (startByteOf fs (pathBase url))) = .ok resp)
    (h206 : resp.statusCode = 206) (hopen : env.openErr (pathBase url) = none) :
    (downloadFile env url fs).err
        = (ioCopy env resp (barAtStart resp (localSize fs (pathBase url) : Int) (pathBase url))).err ∧
      (downloadFile env url fs).fs
        = fs.write (pathBase url) ((fs (pathBase url)).getD [] ++
          (ioCopy env resp
            (barAtStart resp (localSize fs (pathBase url) : Int) (pathBase url))).written) ∧
      (downloadFile env url fs).bar
        = some (barAtStart resp (localSize fs (pathBase url) : Int) (pathBase url)) := by
  simp only [downloadFile, hreq, hresp, h206]
  simp only [openFile, hopen, startByteOf_eq_localSize]
  refine ⟨by simp, ?_, by simp⟩
  funext n
  by_cases hn : n = pathBase url <;> simp [FS.write, hn]

theorem downloadFile_truncated (env : Env) (url : String) (fs : FS) (resp : Response)
    (hreq : env.newRequestErr url = none)
    (hresp : env.roundTrip (buildRequest url (startByteOf fs (pathBase url))) = .ok resp)
    (h200 : resp.statusCode = 200) (hopen : env.openErr (pathBase url) = none) :
    (downloadFile env url fs).err = (ioCopy env resp (barAtStart resp 0 (pathBase url))).err ∧
      (downloadFile env url fs).fs
        = fs.write (pathBase url) (ioCopy env resp (barAtStart resp 0 (pathBase url))).written ∧
      (downloadFile env url fs).bar = some (barAtStart resp 0 (pathBase url)) := by
  simp only [downloadFile, hreq, hresp, h200]
  simp only [openFile, hopen]
  refine ⟨by simp, ?_, by simp⟩
  funext n
  by_cases hn : n = pathBase url <;> simp [FS.write, hn]

theorem downloadFile_full_content (env : Env) (url : String) (fs : FS) (resp : Response)
    (hreq : env.newRequestErr url = none)
    (hresp : env.roundTrip (buildRequest url (startByteOf fs (pathBase url))) = .ok resp)
    (h200 : resp.statusCode = 200) (hbodyErr : resp.bodyErr = none)
    (hlen : resp.LengthAgrees)
    (hopen : env.openErr (pathBase url) = none) (hwrite : env.writeFault = none) :
    (downloadFile env url fs).err = none ∧
      (downloadFile env url fs).fs = fs.write (pathBase url) resp.body := by
  have hacc : (barAtStart resp ((0 : Nat) : Int) (pathBase url)).Accepts resp.body.length := by
    apply barAtStart_accepts
    rcases hlen with h | ⟨h1, h2⟩
    · exact Or.inl ⟨h, rfl⟩
    · refine Or.inr ⟨h1, ?_⟩
      rw [← h1]
      simpa using h2
  rw [Nat.cast_zero] at hacc
  have hcopy := ioCopy_all env resp _ hwrite hbodyErr hacc
  have h := downloadFile_truncated env url fs resp hreq hresp h200 hopen
  rw [hcopy.1, hcopy.2] at h
  exact ⟨h.1, h.2.1⟩

theorem downloadFile_resume_declared (env : Env) (url : String) (fs : FS) (R : Bytes) (S : Nat)
    (resp : Response) (hS0 : 0 < S) (hS : S < R.length)
    (hfile : fs (pathBase url) = some (R.take S))
    (hreq : env.newRequestErr url = none)
    (hresp : env.roundTrip (rangeRequest url S) = .ok resp)
    (h206 : resp.statusCode = 206) (hbody : resp.body = R.drop S) (hbodyErr : resp.bodyErr = none)
    (hlen : resp.contentLength = (resp.body.length : Int)) (hR : (R.length : Int) < 2 ^ 63)
    (hopen : env.openErr (pathBase url) = none) (hwrite : env.writeFault = none) :
    (downloadFile env url fs).err = none ∧ (downloadFile env url fs).fs (pathBase url) = some R ∧
      ∀ n, n ≠ pathBase url → (downloadFile env url fs).fs n = fs n := by
  have hsize : localSize fs (pathBase url) = S := by
    simp [localSize, hfile, List.length_take, Nat.min_eq_left (Nat.le_of_lt hS)]
  have hb : buildRequest url (startByteOf fs (pathBase url)) = rangeRequest url S := by
    rw [startByteOf_eq_localSize, hsize, buildRequest_pos _ _ hS0]
  have hblen : resp.body.length = R.length - S := by rw [hbody, List.length_drop]
  have hacc : (barAtStart resp (S : Int) (pathBase url)).Accepts resp.body.length := by
    apply barAtStart_accepts
    refine Or.inr ⟨hlen, ?_⟩
    rw [hblen]
    omega
  have hcopy := ioCopy_all env resp _ hwrite hbodyErr hacc
  have h := downloadFile_appended env url fs resp hreq (hb ▸ hresp) h206 hopen
  rw [hsize, hcopy.1, hcopy.2, hfile, hbody] at h
  simp only [Option.getD_some, List.take_append_drop] at h
  refine ⟨h.1, by rw [h.2.1]; simp [FS.write], ?_⟩
  intro n hn
  rw [h.2.1]
  simp [FS.write, hn]

/-- C3: when the response status is 416, `downloadFile` returns `nil` and the
file system is left exactly as it was. -/
theorem downloadFile_416_unchanged (env : Env) (url : String) (fs : FS) (resp : Response)
    (hreq : env.newRequestErr url = none)
    (hresp : env.roundTrip (buildRequest url (startByteOf fs (pathBase url))) = .ok resp)
    (h416 : resp.statusCode = 416) :
    (downloadFile env url fs).err = none ∧ (downloadFile env url fs).fs = fs := by
  simp [downloadFile, hreq, hresp, h416]

/-- Witness of C3: a three-byte local file and a server that answers 416. -/
theorem downloadFile_416_unchanged_witness :
    (downloadFile (constEnv notSatisfiableResponse) "http://host/a.bin"
        (singleFile "a.bin" [1, 2, 3])).err = none ∧
      (downloadFile (constEnv notSatisfiableResponse) "http://host/a.bin"
        (singleFile "a.bin" [1, 2, 3])).fs = singleFile "a.bin" [1, 2, 3] :=
  downloadFile_416_unchanged (constEnv notSatisfiableResponse) "http://host/a.bin"
    (singleFile "a.bin" [1, 2, 3]) notSatisfiableResponse rfl rfl rfl

/-- C4 as the claim words it fails: for a 404 answer the message is
`server returned: 404 Not Found`, with a colon, not
`server returned 404 Not Found`. -/
theorem status_message_counterexample :
    (constEnv notFoundResponse).roundTrip
        (buildRequest "http://host/a.bin" (startByteOf (fun _ => none) (pathBase "http://host/a.bin")))
        = .ok notFoundResponse ∧
      notFoundResponse.statusCode ≠ 200 ∧ notFoundResponse.statusCode ≠ 206 ∧
      notFoundResponse.statusCode ≠ 416 ∧
      (downloadFile (constEnv notFoundResponse) "http://host/a.bin" (fun _ => none)).err
        = some (Err.status "404 Not Found") ∧
      (Err.status "404 Not Found").message = "server returned: 404 Not Found" ∧
      ¬ ∃ e, (downloadFile (constEnv notFoundResponse) "http://host/a.bin" (fun _ => none)).err
          = some e ∧ e.message = statusMessageAsSpecified notFoundResponse := by
  refine ⟨rfl, by decide, by decide, by decide, rfl, by decide, ?_⟩
  rintro ⟨e, he, hm⟩
  have he' : e = Err.status "404 Not Found" := by
    have : (downloadFile (constEnv notFoundResponse) "http://host/a.bin" (fun _ => none)).err
        = some (Err.status "404 Not Found") := rfl
    rw [this] at he
    exact (Option.some.inj he).symm
  subst he'
  revert hm
  decide

/-- C4, amended: for a status code other than 200, 206 and 416 `downloadFile`
returns the status error, whose text is `server returned: ` followed by the
status text of the response, and leaves the file system unchanged; and a
status error is returned only for a response whose status code is none of
200, 206, 416. -/
theorem downloadFile_other_status (env : Env) (url : String) (fs : FS) :
    (∀ resp, env.newRequestErr url = none →
      env.roundTrip (buildRequest url (startByteOf fs (pathBase url))) = .ok resp →
      resp.statusCode ≠ 200 → resp.statusCode ≠ 206 → resp.statusCode ≠ 416 →
      (downloadFile env url fs).err = some (Err.status resp.status) ∧
      (Err.status resp.status).message = "server returned: " ++ resp.status ∧
      (downloadFile env url fs).fs = fs) ∧
    (∀ statusText, (downloadFile env url fs).err = some (Err.status statusText) →
      ∃ resp, env.roundTrip (buildRequest url (startByteOf fs (pathBase url))) = .ok resp ∧
        resp.status = statusText ∧
        resp.statusCode ≠ 200 ∧ resp.statusCode ≠ 206 ∧ resp.statusCode ≠ 416) := by
  constructor
  · intro resp hreq hresp h200 h206 h416
    simp [downloadFile, hreq, hresp, h200, h206, h416, Err.message]
  · intro statusText h
    unfold downloadFile at h
    cases hreq : env.newRequestErr url with
    | some msg => simp [hreq] at h
    | none =>
      cases hresp : env.roundTrip (buildRequest url (startByteOf fs (pathBase url))) with
      | error msg => simp [hreq, hresp] at h
      | ok resp =>
        refine ⟨resp, rfl, ?_⟩
        simp only [hreq, hresp] at h
        by_cases h416 : resp.statusCode = 416
        · simp [h416] at h
        · by_cases hother : resp.statusCode ≠ 200 ∧ resp.statusCode ≠ 206
          · simp [h416, hother] at h
            exact ⟨h, hother.1, hother.2, h416⟩
          · exfalso
            simp only [h416, hother, if_false] at h
            cases hopen : env.openErr (pathBase url) with
            | some msg => simp [openFile, hopen] at h
            | none =>
              by_cases h206 : resp.statusCode = 206
              · simp only [openFile, hopen, h206, if_true] at h
                obtain ⟨msg, hmsg⟩ := ioCopy_err _ _ _ _ h
                cases hmsg
              · simp only [openFile, hopen, h206, if_false] at h
                obtain ⟨msg, hmsg⟩ := ioCopy_err _ _ _ _ h
                cases hmsg

/-- Witness of C4: a 404 answer, with no local file. -/
theorem downloadFile_other_status_witness :
    ((downloadFile (constEnv notFoundResponse) "http://host/a.bin" (fun _ => none)).err
        = some (Err.status "404 Not Found") ∧
      (Err.status "404 Not Found").message = "server returned: " ++ "404 Not Found" ∧
      (downloadFile (constEnv notFoundResponse) "http://host/a.bin" (fun _ => none)).fs
        = fun _ => none) ∧
    ∃ resp, (constEnv notFoundResponse).roundTrip
        (buildRequest "http://host/a.bin" (startByteOf (fun _ => none) (pathBase "http://host/a.bin")))
        = .ok resp ∧
      resp.status = "404 Not Found" ∧
      resp.statusCode ≠ 200 ∧ resp.statusCode ≠ 206 ∧ resp.statusCode ≠ 416 :=
  ⟨(downloadFile_other_status (constEnv notFoundResponse) "http://host/a.bin" (fun _ => none)).1
      notFoundResponse rfl rfl (by decide) (by decide) (by decide),
    (downloadFile_other_status (constEnv notFoundResponse) "http://host/a.bin" (fun _ => none)).2
      "404 Not Found" rfl⟩

/-- C5: the request `downloadFile` hands to the client is a GET for the URL
that carries a `Range` header exactly when the destination file has a positive
size `S`, and the header is then `bytes=` followed by the decimal digits of
`S` followed by `-`. -/
theorem downloadFile_range_header (env : Env) (url : String) (fs : FS)
    (hreq : env.newRequestErr url = none) :
    ∃ req, (downloadFile env url fs).sent = some req ∧ req.method = "GET" ∧ req.url = url ∧
      (req.range.isSome = true ↔ 0 < localSize fs (pathBase url)) ∧
      (0 < localSize fs (pathBase url) →
        req.range = some ("bytes=" ++ Nat.repr (localSize fs (pathBase url)) ++ "-")) := by
  refine ⟨buildRequest url (startByteOf fs (pathBase url)), ?_, rfl, rfl, ?_, ?_⟩
  · unfold downloadFile
    simp only [hreq]
    cases env.roundTrip (buildRequest url (startByteOf fs (pathBase url))) with
    | error msg => rfl
    | ok resp =>
      by_cases h416 : resp.statusCode = 416
      · simp [h416]
      · by_cases hother : resp.statusCode ≠ 200 ∧ resp.statusCode ≠ 206
        · simp [h416, hother]
        · simp only [h416, hother, if_false]
          cases openFile env fs (pathBase url)
            (if resp.statusCode = 206 then OpenFlags.createAppend else OpenFlags.createTrunc) <;> rfl
  · rw [startByteOf_eq_localSize]
    by_cases h : 0 < localSize fs (pathBase url)
    · rw [buildRequest_pos _ _ h]; simp [rangeRequest, h]
    · have h0 : localSize fs (pathBase url) = 0 := by omega
      simp [h0, buildRequest]
  · intro h
    rw [startByteOf_eq_localSize, buildRequest_pos _ _ h]
    rfl

/-- Witness of C5: the six-byte partial file of `TestDownloadResume` makes the
header `bytes=6-`. -/
theorem downloadFile_range_header_witness :
    ∃ req, (downloadFile resumeTestEnv "http://127.0.0.1:8080/resume_test.txt"
        (singleFile "resume_test.txt" (asciiBytes "full-l"))).sent = some req ∧
      req.method = "GET" ∧ req.url = "http://127.0.0.1:8080/resume_test.txt" ∧
      (req.range.isSome = true ↔
        0 < localSize (singleFile "resume_test.txt" (asciiBytes "full-l"))
          (pathBase "http://127.0.0.1:8080/resume_test.txt")) ∧
      (0 < localSize (singleFile "resume_test.txt" (asciiBytes "full-l"))
          (pathBase "http://127.0.0.1:8080/resume_test.txt") →
        req.range = some ("bytes=" ++
          Nat.repr (localSize (singleFile "resume_test.txt" (asciiBytes "full-l"))
            (pathBase "http://127.0.0.1:8080/resume_test.txt")) ++ "-")) :=
  downloadFile_range_header resumeTestEnv "http://127.0.0.1:8080/resume_test.txt"
    (singleFile "resume_test.txt" (asciiBytes "full-l")) rfl

/-- The resume of `TestDownloadResume`, where the 206 answer declares its 13
bytes: `nil`, and the file is the whole content. -/
theorem downloadFile_resume_declared_test :
    (downloadFile resumeTestEnv "http://127.0.0.1:8080/resume_test.txt"
        (singleFile "resume_test.txt" (asciiBytes "full-l"))).err = none ∧
      (downloadFile resumeTestEnv "http://127.0.0.1:8080/resume_test.txt"
        (singleFile "resume_test.txt" (asciiBytes "full-l"))).fs
          (pathBase "http://127.0.0.1:8080/resume_test.txt")
        = some (asciiBytes "full-length-content") ∧
      ∀ n, n ≠ pathBase "http://127.0.0.1:8080/resume_test.txt" →
        (downloadFile resumeTestEnv "http://127.0.0.1:8080/resume_test.txt"
          (singleFile "resume_test.txt" (asciiBytes "full-l"))).fs n
        = singleFile "resume_test.txt" (asciiBytes "full-l") n :=
  downloadFile_resume_declared resumeTestEnv "http://127.0.0.1:8080/resume_test.txt"
    (singleFile "resume_test.txt" (asciiBytes "full-l")) (asciiBytes "full-length-content") 6
    { statusCode := 206, status := "206 Partial Content", contentLength := 13
      body := (asciiBytes "full-length-content").drop 6, bodyErr := none }
    (by decide) (by decide) (by decide) rfl rfl rfl rfl rfl (by decide) (by decide) rfl rfl

/-- C1 at its failing input: the first six bytes of the content on disk and
a server that answers `Range: bytes=6-` with status 206 and the remaining
bytes, but without a content length.  The progress indicator gets the total
`5` and the start `6` and refuses the first buffer written to it, so
`downloadFile` returns that error instead of `nil`; when the body arrives in
more than one read (here four bytes at a time) the file is left short. -/
theorem resume_without_length_fails :
    (singleFile "resume_test.txt" (asciiBytes "full-l")) "resume_test.txt"
        = some ((asciiBytes "full-length-content").take 6) ∧
      (constEnv chunkedPartialResponse).roundTrip
          (rangeRequest "http://127.0.0.1:8080/resume_test.txt" 6)
        = .ok chunkedPartialResponse ∧
      chunkedPartialResponse.statusCode = 206 ∧
      chunkedPartialResponse.body = (asciiBytes "full-length-content").drop 6 ∧
      chunkedPartialResponse.bodyErr = none ∧
      (downloadFile (constEnv chunkedPartialResponse) "http://127.0.0.1:8080/resume_test.txt"
        (singleFile "resume_test.txt" (asciiBytes "full-l"))).err
        = some (Err.copy "current number exceeds max") ∧
      (downloadFile slowChunkedEnv "http://127.0.0.1:8080/resume_test.txt"
        (singleFile "resume_test.txt" (asciiBytes "full-l"))).err
        = some (Err.copy "current number exceeds max") ∧
      (downloadFile slowChunkedEnv "http://127.0.0.1:8080/resume_test.txt"
        (singleFile "resume_test.txt" (asciiBytes "full-l"))).fs "resume_test.txt"
        = some (asciiBytes "full-lengt") := by
  refine ⟨by decide, rfl, by decide, rfl, rfl, by decide, by decide, by decide⟩

/-- C2: whatever the destination file held, when the server answers 200 with
body `R` to every request, `downloadFile` returns `nil` and the destination
file is exactly `R`.  The local file can be opened and written. -/
theorem downloadFile_fallback_correct (env : Env) (url : String) (fs : FS) (R : Bytes)
    (hreq : env.newRequestErr url = none)
    (hsrv : IgnoresRanges R env)
    (hopen : env.openErr (pathBase url) = none) (hwrite : env.writeFault = none) :
    (downloadFile env url fs).err = none ∧ (downloadFile env url fs).fs (pathBase url) = some R ∧
      ∀ n, n ≠ pathBase url → (downloadFile env url fs).fs n = fs n := by
  obtain ⟨resp, hresp, h200, hbody, hbodyErr, hlen⟩ :=
    hsrv (buildRequest url (startByteOf fs (pathBase url)))
  have h := downloadFile_full_content env url fs resp hreq hresp h200 hbodyErr hlen hopen hwrite
  rw [hbody] at h
  refine ⟨h.1, by rw [h.2]; simp [FS.write], ?_⟩
  intro n hn
  rw [h.2]
  simp [FS.write, hn]

/-- Witness of C2: a local file longer than the resource, and the always-200
handler of `TestDownloadFile`. -/
theorem downloadFile_fallback_correct_witness :
    (downloadFile (constEnv fakeFileResponse) "http://127.0.0.1:8080/pkg.png"
        (singleFile "pkg.png" (asciiBytes "an older and longer partial file"))).err = none ∧
      (downloadFile (constEnv fakeFileResponse) "http://127.0.0.1:8080/pkg.png"
        (singleFile "pkg.png" (asciiBytes "an older and longer partial file"))).fs
          (pathBase "http://127.0.0.1:8080/pkg.png")
        = some (asciiBytes "fake file content") ∧
      ∀ n, n ≠ pathBase "http://127.0.0.1:8080/pkg.png" →
        (downloadFile (constEnv fakeFileResponse) "http://127.0.0.1:8080/pkg.png"
          (singleFile "pkg.png" (asciiBytes "an older and longer partial file"))).fs n
        = singleFile "pkg.png" (asciiBytes "an older and longer partial file") n :=
  downloadFile_fallback_correct (constEnv fakeFileResponse) "http://127.0.0.1:8080/pkg.png"
    (singleFile "pkg.png" (asciiBytes "an older and longer partial file"))
    (asciiBytes "fake file content") rfl
    (fun _ => ⟨fakeFileResponse, rfl, rfl, rfl, rfl, Or.inr (by decide)⟩) rfl rfl

/-- C8 as the claim words it fails: with one byte on disk and a 206 answer
that declares a content length of `2^63 - 1`, the total handed to the progress
indicator is `-2^63`, not the content length plus the resume offset. -/
theorem progress_total_counterexample :
    hugeLengthResponse.statusCode = 206 ∧ 0 ≤ hugeLengthResponse.contentLength ∧
      localSize (singleFile "a.bin" [1]) (pathBase "http://host/a.bin") = 1 ∧
      (downloadFile (constEnv hugeLengthResponse) "http://host/a.bin"
        (singleFile "a.bin" [1])).bar.map Bar.max = some (-9223372036854775808) ∧
      (downloadFile (constEnv hugeLengthResponse) "http://host/a.bin"
        (singleFile "a.bin" [1])).bar.map Bar.max ≠ some (hugeLengthResponse.contentLength + 1) := by
  decide

/-- C8, amended: for a 200 or 206 answer with declared content length
`L ≥ 0`, the resume offset is the local size `S` for 206 and `0` for 200, and,
when `L` plus the resume offset is below `2^63`, the progress indicator is
created with total `L` plus the resume offset and starts at the resume offset.
The local file can be opened. -/
theorem downloadFile_progress_accounting (env : Env) (url : String) (fs : FS) (resp : Response)
    (L : Int) (hreq : env.newRequestErr url = none)
    (hresp : env.roundTrip (buildRequest url (startByteOf fs (pathBase url))) = .ok resp)
    (hstatus : resp.statusCode = 206 ∨ resp.statusCode = 200)
    (hL : resp.contentLength = L) (hL0 : 0 ≤ L)
    (hopen : env.openErr (pathBase url) = none)
    (hbound : L + (if resp.statusCode = 206 then (localSize fs (pathBase url) : Int) else 0)
      < 2 ^ 63) :
    ∃ bar, (downloadFile env url fs).bar = some bar ∧
      bar.max = L + (if resp.statusCode = 206 then (localSize fs (pathBase url) : Int) else 0) ∧
      bar.current = (if resp.statusCode = 206 then (localSize fs (pathBase url) : Int) else 0) := by
  have hS : (0 : Int) ≤ (localSize fs (pathBase url) : Int) := Int.ofNat_nonneg _
  subst hL
  rcases hstatus with h | h
  · simp only [h, if_true] at hbound ⊢
    have hd := (downloadFile_appended env url fs resp hreq hresp h hopen).2.2
    refine ⟨_, hd, ?_, ?_⟩
    · rw [barAtStart_max]
      exact wrapInt64_of_range _ (by omega) hbound
    · exact barAtStart_current _ _ _ hS hL0 hbound
  · have h206 : resp.statusCode ≠ 206 := by omega
    simp only [h206, if_false, add_zero] at hbound ⊢
    have hd := (downloadFile_truncated env url fs resp hreq hresp h hopen).2.2
    refine ⟨_, hd, ?_, ?_⟩
    · rw [barAtStart_max, add_zero]
      exact wrapInt64_of_range _ (by omega) hbound
    · exact barAtStart_current _ _ _ (le_refl _) hL0 (by simpa using hbound)

/-- Witness of C8: the resume of `TestDownloadResume`, 13 bytes declared on
top of 6 on disk. -/
theorem downloadFile_progress_accounting_witness :
    ∃ bar, (downloadFile resumeTestEnv "http://127.0.0.1:8080/resume_test.txt"
        (singleFile "resume_test.txt" (asciiBytes "full-l"))).bar = some bar ∧
      bar.max = 13 + (if (206 : Int) = 206 then
        (localSize (singleFile "resume_test.txt" (asciiBytes "full-l"))
          (pathBase "http://127.0.0.1:8080/resume_test.txt") : Int) else 0) ∧
      bar.current = (if (206 : Int) = 206 then
        (localSize (singleFile "resume_test.txt" (asciiBytes "full-l"))
          (pathBase "http://127.0.0.1:8080/resume_test.txt") : Int) else 0) :=
  downloadFile_progress_accounting resumeTestEnv "http://127.0.0.1:8080/resume_test.txt"
    (singleFile "resume_test.txt" (asciiBytes "full-l"))
    { statusCode := 206, status := "206 Partial Content", contentLength := 13
      body := (asciiBytes "full-length-content").drop 6, bodyErr := none }
    13 rfl rfl (Or.inl rfl) rfl (by decide) rfl (by decide)

/-- C9 at its failing input: six bytes on disk and a 206 answer without a
content length give the progress indicator the total `5` and the start `6`;
the same answer with status 200 gives the total `-1`. -/
theorem unknown_length_resume_total :
    chunkedPartialResponse.contentLength = -1 ∧
      (downloadFile (constEnv chunkedPartialResponse) "http://127.0.0.1:8080/resume_test.txt"
        (singleFile "resume_test.txt" (asciiBytes "full-l"))).bar
        = some { max := 5, current := 6, description := "downloading resume_test.txt" } ∧
      (downloadFile (constEnv chunkedFullResponse) "http://127.0.0.1:8080/resume_test.txt"
        (singleFile "resume_test.txt" (asciiBytes "full-l"))).bar
        = some { max := -1, current := 0, description := "downloading resume_test.txt" } := by
  decide

/-! ## Decimal rendering of offsets -/

theorem digitChar_decimal (d : Nat) (h : d < 10) :
    (Nat.digitChar d).isDigit = true ∧ (Nat.digitChar d).toNat - 48 = d := by
  interval_cases d <;> decide

theorem toDigitsCore_decimal (fuel : Nat) : ∀ (n : Nat) (ds : List Char), n < fuel →
    ∃ pre, Nat.toDigitsCore 10 fuel n ds = pre ++ ds ∧ pre ≠ [] ∧
      pre.all Char.isDigit = true ∧ digitsValue pre = n := by
  induction fuel with
  | zero => intro n ds h; omega
  | succ fuel ih =>
    intro n ds h
    have hd := digitChar_decimal (n % 10) (Nat.mod_lt _ (by decide))
    by_cases h0 : n / 10 = 0
    · refine ⟨[Nat.digitChar (n % 10)], ?_, by simp, by simp [hd.1], ?_⟩
      · simp [Nat.toDigitsCore, h0]
      · simp only [digitsValue, List.foldl, hd.2]
        omega
    · obtain ⟨pre, hpre, hne, hall, hval⟩ :=
        ih (n / 10) (Nat.digitChar (n % 10) :: ds) (by omega)
      refine ⟨pre ++ [Nat.digitChar (n % 10)], ?_, by simp, ?_, ?_⟩
      · simp [Nat.toDigitsCore, h0, hpre]
      · simp [List.all_append, hall, hd.1]
      · unfold digitsValue at hval ⊢
        rw [List.foldl_append, hval]
        simp only [List.foldl, hd.2]
        omega

theorem parseRangeStart_render (k : Nat) :
    parseRangeStart ("bytes=" ++ Nat.repr k ++ "-") = some k := by
  obtain ⟨pre, hpre, hne, hall, hval⟩ := toDigitsCore_decimal (k + 1) k [] (Nat.lt_succ_self k)
  have hdata : ("bytes=" ++ Nat.repr k ++ "-").data
      = 'b' :: 'y' :: 't' :: 'e' :: 's' :: '=' :: (pre ++ ['-']) := by
    simp [Nat.repr, Nat.toDigits, hpre, List.asString]
  unfold parseRangeStart
  rw [hdata]
  simp [hne, hall, hval]

theorem rangeServerEnv_honors (R : Bytes) (hR : (R.length : Int) < 2 ^ 63) :
    HonorsRanges R (rangeServerEnv R) := by
  refine ⟨?_, ?_, ?_⟩
  · intro req h
    exact ⟨{ statusCode := 200, status := "200 OK", contentLength := (R.length : Nat)
             body := R, bodyErr := none },
      by simp [rangeServerEnv, h], rfl, rfl, rfl, Or.inr ⟨rfl, hR⟩⟩
  · intro req k h hk
    refine ⟨{ statusCode := 206, status := "206 Partial Content"
              contentLength := (R.length - k : Nat), body := R.drop k, bodyErr := none },
      by simp [rangeServerEnv, h, parseRangeStart_render, hk], rfl, rfl, rfl, Or.inr ⟨?_, ?_⟩⟩
    · simp [List.length_drop]
    · show ((R.length - k : Nat) : Int) < 2 ^ 63
      omega
  · intro req k h hk
    simp [rangeServerEnv, h, parseRangeStart_render, Nat.not_lt.mpr hk]

/-! ## Running again -/

theorem downloadFile_again (env : Env) (url : String) (fs : FS) (R : Bytes)
    (hsrv : HonorsRanges R env ∨ IgnoresRanges R env)
    (hreq : env.newRequestErr url = none)
    (hopen : env.openErr (pathBase url) = none) (hwrite : env.writeFault = none)
    (hfile : fs (pathBase url) = some R) :
    (downloadFile env url fs).err = none ∧ (downloadFile env url fs).fs = fs := by
  have hfull : ∀ resp, env.roundTrip (buildRequest url (startByteOf fs (pathBase url))) = .ok resp →
      resp.statusCode = 200 → resp.body = R → resp.bodyErr = none → resp.LengthAgrees →
      (downloadFile env url fs).err = none ∧ (downloadFile env url fs).fs = fs := by
    intro resp hresp h200 hbody hbodyErr hlen
    have h := downloadFile_full_content env url fs resp hreq hresp h200 hbodyErr hlen hopen hwrite
    rw [hbody, FS.write_self fs _ R hfile] at h
    exact h
  rcases hsrv with hsrv | hsrv
  · obtain ⟨hnone, _, hpast⟩ := hsrv
    have hsize : localSize fs (pathBase url) = R.length := by simp [localSize, hfile]
    by_cases hR : 0 < R.length
    · have hb : buildRequest url (startByteOf fs (pathBase url)) = rangeRequest url R.length := by
        rw [startByteOf_eq_localSize, hsize, buildRequest_pos _ _ hR]
      obtain ⟨resp, hresp, h416⟩ := hpast (rangeRequest url R.length) R.length rfl (le_refl _)
      simp [downloadFile, hreq, hb, hresp, h416]
    · have hb : buildRequest url (startByteOf fs (pathBase url))
          = { method := "GET", url := url, range := none } := by
        rw [startByteOf_eq_localSize, hsize]
        have h0 : R.length = 0 := by omega
        simp [h0, buildRequest]
      obtain ⟨resp, hresp, h200, hbody, hbodyErr, hlen⟩ :=
        hnone { method := "GET", url := url, range := none } rfl
      exact hfull resp (hb ▸ hresp) h200 hbody hbodyErr hlen
  · obtain ⟨resp, hresp, h200, hbody, hbodyErr, hlen⟩ :=
      hsrv (buildRequest url (startByteOf fs (pathBase url)))
    exact hfull resp hresp h200 hbody hbodyErr hlen

/-- C6: against a server that honours ranges over `R` or that always answers
200 with `R`, once a first run of `downloadFile` has returned `nil` and left
the destination file equal to `R`, a second run returns `nil` and leaves the
file system as the first run left it: the destination file is still `R`.  The
local file can be opened and written. -/
theorem downloadFile_idempotent (env : Env) (url : String) (fs0 : FS) (R : Bytes)
    (hsrv : HonorsRanges R env ∨ IgnoresRanges R env)
    (hopen : env.openErr (pathBase url) = none) (hwrite : env.writeFault = none)
    (hfirst : (downloadFile env url fs0).err = none)
    (hfile : (downloadFile env url fs0).fs (pathBase url) = some R) :
    (downloadFile env url (downloadFile env url fs0).fs).err = none ∧
      (downloadFile env url (downloadFile env url fs0).fs).fs (pathBase url) = some R ∧
      (downloadFile env url (downloadFile env url fs0).fs).fs = (downloadFile env url fs0).fs := by
  have hreq : env.newRequestErr url = none := by
    cases h : env.newRequestErr url with
    | none => rfl
    | some msg => simp [downloadFile, h] at hfirst
  have h := downloadFile_again env url (downloadFile env url fs0).fs R hsrv hreq hopen hwrite hfile
  exact ⟨h.1, by rw [h.2]; exact hfile, h.2⟩

/-- Witness of C6: the resume of `TestDownloadResume` against a server that
honours ranges, then a second run. -/
theorem downloadFile_idempotent_witness :
    (downloadFile (rangeServerEnv (asciiBytes "full-length-content"))
        "http://127.0.0.1:8080/resume_test.txt"
        (downloadFile (rangeServerEnv (asciiBytes "full-length-content"))
          "http://127.0.0.1:8080/resume_test.txt"
          (singleFile "resume_test.txt" (asciiBytes "full-l"))).fs).err = none ∧
      (downloadFile (rangeServerEnv (asciiBytes "full-length-content"))
        "http://127.0.0.1:8080/resume_test.txt"
        (downloadFile (rangeServerEnv (asciiBytes "full-length-content"))
          "http://127.0.0.1:8080/resume_test.txt"
          (singleFile "resume_test.txt" (asciiBytes "full-l"))).fs).fs
          (pathBase "http://127.0.0.1:8080/resume_test.txt")
        = some (asciiBytes "full-length-content") ∧
      (downloadFile (rangeServerEnv (asciiBytes "full-length-content"))
        "http://127.0.0.1:8080/resume_test.txt"
        (downloadFile (rangeServerEnv (asciiBytes "full-length-content"))
          "http://127.0.0.1:8080/resume_test.txt"
          (singleFile "resume_test.txt" (asciiBytes "full-l"))).fs).fs
        = (downloadFile (rangeServerEnv (asciiBytes "full-length-content"))
          "http://127.0.0.1:8080/resume_test.txt"
          (singleFile "resume_test.txt" (asciiBytes "full-l"))).fs :=
  downloadFile_idempotent (rangeServerEnv (asciiBytes "full-length-content"))
    "http://127.0.0.1:8080/resume_test.txt" (singleFile "resume_test.txt" (asciiBytes "full-l"))
    (asciiBytes "full-length-content")
    (Or.inl (rangeServerEnv_honors (asciiBytes "full-length-content") (by decide))) rfl rfl
    (by decide) (by decide)

/-! ## The destination file name -/

theorem coe_cons_eq (u : String) (l : List String) :
    (↑(u :: l) : Multiset String) = {u} + ↑l := by
  rw [Multiset.singleton_add, Multiset.cons_coe]

theorem coe_append_eq (l₁ l₂ : List String) :
    (↑(l₁ ++ l₂) : Multiset String) = ↑l₁ + ↑l₂ := (Multiset.coe_add l₁ l₂).symm

theorem coe_nil_eq : (↑([] : List String) : Multiset String) = 0 := rfl

theorem heldBy_append (ws vs : List WorkerState) : heldBy (ws ++ vs) = heldBy ws ++ heldBy vs := by
  induction ws with
  | nil => rfl
  | cons w ws ih => simp [heldBy, ih]

theorem running_append (ws vs : List WorkerState) : running (ws ++ vs) = running ws + running vs := by
  induction ws with
  | nil => simp [running]
  | cons w ws ih => simp [running, ih]; omega

theorem heldBy_set (ws : List WorkerState) : ∀ (w : Nat) (old new : WorkerState),
    ws[w]? = some old →
    (↑(heldBy (ws.set w new)) + ↑old.held : Multiset String) = ↑(heldBy ws) + ↑new.held := by
  induction ws with
  | nil => intro w old new h; simp at h
  | cons v vs ih =>
    intro w old new h
    cases w with
    | zero =>
      simp only [List.getElem?_cons_zero, Option.some.injEq] at h
      subst h
      simp only [List.set_cons_zero, heldBy, coe_append_eq]
      abel
    | succ w =>
      simp only [List.getElem?_cons_succ] at h
      have := ih w old new h
      simp only [List.set_cons_succ, heldBy, coe_append_eq]
      rw [add_assoc, this]
      abel

theorem running_set (ws : List WorkerState) : ∀ (w : Nat) (old new : WorkerState),
    ws[w]? = some old →
    running (ws.set w new) + (if old = WorkerState.exited then 0 else 1)
      = running ws + (if new = WorkerState.exited then 0 else 1) := by
  induction ws with
  | nil => intro w old new h; simp at h
  | cons v vs ih =>
    intro w old new h
    cases w with
    | zero =>
      simp only [List.getElem?_cons_zero, Option.some.injEq] at h
      subst h
      simp only [List.set_cons_zero, running]
      omega
    | succ w =>
      simp only [List.getElem?_cons_succ] at h
      have := ih w old new h
      simp only [List.set_cons_succ, running]
      omega

theorem exited_mem_set (ws : List WorkerState) (w : Nat) (new : WorkerState)
    (hnew : new ≠ WorkerState.exited) (h : WorkerState.exited ∈ ws.set w new) :
    WorkerState.exited ∈ ws := by
  rcases List.mem_or_eq_of_mem_set h with h | h
  · exact h
  · exact absurd h.symm hnew

theorem running_zero (ws : List WorkerState) (h : running ws = 0) :
    heldBy ws = [] ∧ ∀ w ∈ ws, w = WorkerState.exited := by
  induction ws with
  | nil => simp [heldBy]
  | cons v vs ih =>
    simp only [running] at h
    have hv : v = WorkerState.exited := by
      by_contra hne
      simp [hne] at h
    have := ih (by omega)
    subst hv
    simp [heldBy, WorkerState.held, this.1]
    exact this.2

theorem main_inv (urls : List String) (workerCount : Int) (s0 : Pool)
    (h : main urls workerCount = some s0) : PoolInv urls workerCount s0 := by
  unfold main at h
  split at h
  · simp at h
  · simp only [Option.some.injEq] at h
    subst h
    refine ⟨?_, rfl, rfl, ?_, ?_, ?_, ?_, ?_, ?_⟩
    · simp [Pool.queued, Pool.inProgress, Pool.produced, heldBy]
    all_goals simp

theorem step_inv (urls : List String) (workerCount : Int) (s s' : Pool) (a : Action)
    (hinv : PoolInv urls workerCount s) (h : step s a = some s') : PoolInv urls workerCount s' := by
  obtain ⟨hc, hcap, hwg, hsp, hcf, hca, hed, hcd, hfd⟩ := hinv
  simp only [Pool.queued, Pool.inProgress, Pool.produced, List.map_append, coe_append_eq] at hc
  cases a with
  | spawn =>
    simp only [step] at h
    split at h
    · rename_i hpos
      simp only [Option.some.injEq] at h
      subst h
      refine ⟨?_, hcap, ?_, ?_, ?_, hca, ?_, ?_, hfd⟩
      · simp only [Pool.queued, Pool.inProgress, Pool.produced, List.map_append, coe_append_eq,
          heldBy_append, heldBy, WorkerState.held, List.append_nil, coe_nil_eq, add_zero]
        exact hc
      · simp only [running_append, running]
        simp [hwg]
      · simp only [List.length_append, List.length_singleton]
        omega
      · intro hj
        have := hcf hj
        omega
      · intro hm
        simp only [List.mem_append, List.mem_singleton] at hm
        rcases hm with hm | hm
        · exact hed hm
        · cases hm
      · intro hr
        have := hcf (hca (hcd hr).1)
        omega
    · simp at h
  | feed =>
    simp only [step] at h
    split at h
    · rename_i hg
      split at h
      · rename_i url rest hfeed
        simp only [Option.some.injEq] at h
        subst h
        refine ⟨?_, hcap, hwg, ?_, ?_, hca, ?_, hcd, hfd⟩
        · simp only [Pool.queued, Pool.inProgress, Pool.produced, List.map_append, coe_append_eq,
            coe_cons_eq, coe_nil_eq, add_zero]
          rw [hfeed, coe_cons_eq] at hc
          rw [← hc]
          abel
        · exact hsp
        · intro hj
          simp [hg.2.1] at hj
        · intro hm
          have := (hed hm).2
          simp [hg.2.1] at this
      · simp at h
    · simp at h
  | closeJobs =>
    simp only [step] at h
    split at h
    · rename_i hg
      simp only [Option.some.injEq] at h
      subst h
      refine ⟨?_, hcap, hwg, hsp, ?_, ?_, ?_, hcd, hfd⟩
      · simp only [Pool.queued, Pool.inProgress, Pool.produced, List.map_append, coe_append_eq]
        exact hc
      · intro _
        exact ⟨hg.1, hg.2.1⟩
      · intro _
        rfl
      · intro hm
        exact ⟨(hed hm).1, rfl⟩
    · simp at h
  | startCloser =>
    simp only [step] at h
    split at h
    · rename_i hg
      simp only [Option.some.injEq] at h
      subst h
      refine ⟨?_, hcap, hwg, hsp, hcf, ?_, hed, ?_, hfd⟩
      · simp only [Pool.queued, Pool.inProgress, Pool.produced, List.map_append, coe_append_eq]
        exact hc
      · intro _
        exact hg.1
      · intro hr
        exact ⟨rfl, (hcd hr).2⟩
    · simp at h
  | receive w =>
    simp only [step] at h
    split at h
    · rename_i url rest hget hjobs
      simp only [Option.some.injEq] at h
      subst h
      have hs := heldBy_set s.workers w _ (WorkerState.downloading url) hget
      have hr := running_set s.workers w _ (WorkerState.downloading url) hget
      simp only [WorkerState.held, coe_nil_eq, add_zero, coe_cons_eq] at hs
      refine ⟨?_, hcap, ?_, ?_, hcf, hca, ?_, hcd, hfd⟩
      · simp only [Pool.queued, Pool.inProgress, Pool.produced, List.map_append, coe_append_eq]
        rw [hjobs, coe_cons_eq] at hc
        rw [hs, ← hc]
        abel
      · simp at hr
        simp only [hwg]
        omega
      · simp only [List.length_set]
        exact hsp
      · intro hm
        have := (hed (exited_mem_set _ _ _ (by simp) hm)).1
        simp [hjobs] at this
    · simp at h
  | download w err =>
    simp only [step] at h
    split at h
    · rename_i url hget
      simp only [Option.some.injEq] at h
      subst h
      have hs := heldBy_set s.workers w _ (WorkerState.sending { url := url, err := err }) hget
      have hr := running_set s.workers w _ (WorkerState.sending { url := url, err := err }) hget
      simp only [WorkerState.held] at hs
      have hs' := add_right_cancel hs
      refine ⟨?_, hcap, ?_, ?_, hcf, hca, ?_, hcd, hfd⟩
      · simp only [Pool.queued, Pool.inProgress, Pool.produced, List.map_append, coe_append_eq]
        rw [hs']
        exact hc
      · simp at hr
        simp only [hwg]
        omega
      · simp only [List.length_set]
        exact hsp
      · intro hm
        exact hed (exited_mem_set _ _ _ (by simp) hm)
    · simp at h
  | send w =>
    simp only [step] at h
    split at h
    · rename_i res hget
      split at h
      · rename_i hg
        simp only [Option.some.injEq] at h
        subst h
        have hs := heldBy_set s.workers w _ WorkerState.receiving hget
        have hr := running_set s.workers w _ WorkerState.receiving hget
        simp only [WorkerState.held, coe_nil_eq, add_zero, coe_cons_eq] at hs
        refine ⟨?_, hcap, ?_, ?_, hcf, hca, ?_, ?_, ?_⟩
        · simp only [Pool.queued, Pool.inProgress, Pool.produced, List.map_append, coe_append_eq,
            List.map_cons, List.map_nil, coe_cons_eq, coe_nil_eq, add_zero]
          rw [← hs] at hc
          rw [← hc]
          abel
        · simp at hr
          simp only [hwg]
          omega
        · simp only [List.length_set]
          exact hsp
        · intro hm
          exact hed (exited_mem_set _ _ _ (by simp) hm)
        · intro hrc
          simp [hg.1] at hrc
        · intro hf
          have := (hfd hf).1
          simp [hg.1] at this
      · simp at h
    · simp at h
  | exit w =>
    simp only [step] at h
    split at h
    · rename_i hget
      split at h
      · rename_i hg
        simp only [Option.some.injEq] at h
        subst h
        have hs := heldBy_set s.workers w _ WorkerState.exited hget
        have hr := running_set s.workers w _ WorkerState.exited hget
        simp only [WorkerState.held] at hs
        have hs' := add_right_cancel hs
        refine ⟨?_, hcap, ?_, ?_, hcf, hca, ?_, ?_, hfd⟩
        · simp only [Pool.queued, Pool.inProgress, Pool.produced, List.map_append, coe_append_eq]
          rw [hs']
          exact hc
        · simp at hr
          simp only [hwg]
          omega
        · simp only [List.length_set]
          exact hsp
        · intro _
          exact hg
        · intro hrc
          have := hcd hrc
          exact ⟨this.1, by simp only []; omega⟩
      · simp at h
    · simp at h
  | closeResults =>
    simp only [step] at h
    split at h
    · rename_i hg
      simp only [Option.some.injEq] at h
      subst h
      refine ⟨?_, hcap, hwg, hsp, hcf, hca, hed, ?_, ?_⟩
      · simp only [Pool.queued, Pool.inProgress, Pool.produced, List.map_append, coe_append_eq]
        exact hc
      · intro _
        exact ⟨hg.1, hg.2.1⟩
      · intro hf
        exact ⟨rfl, (hfd hf).2⟩
    · simp at h
  | collect =>
    simp only [step] at h
    split at h
    · rename_i hg
      split at h
      · rename_i res rest hres
        simp only [Option.some.injEq] at h
        subst h
        refine ⟨?_, hcap, hwg, hsp, hcf, hca, hed, hcd, ?_⟩
        · simp only [Pool.queued, Pool.inProgress, Pool.produced, List.map_append, coe_append_eq,
            List.map_cons, List.map_nil, coe_cons_eq, coe_nil_eq, add_zero]
          rw [hres, List.map_cons, coe_cons_eq] at hc
          rw [← hc]
          abel
        · intro hf
          simp [hg.2] at hf
      · simp at h
    · simp at h
  | finish =>
    simp only [step] at h
    split at h
    · rename_i hg
      simp only [Option.some.injEq] at h
      subst h
      refine ⟨?_, hcap, hwg, hsp, hcf, hca, hed, hcd, ?_⟩
      · simp only [Pool.queued, Pool.inProgress, Pool.produced, List.map_append, coe_append_eq]
        exact hc
      · intro _
        exact ⟨hg.2.2.2, hg.2.2.1⟩
    · simp at h

theorem run_inv (urls : List String) (workerCount : Int) (acts : List Action) :
    ∀ (s s' : Pool), PoolInv urls workerCount s → run s acts = some s' →
      PoolInv urls workerCount s' := by
  induction acts with
  | nil =>
    intro s s' hinv h
    simp only [run, Option.some.injEq] at h
    exact h ▸ hinv
  | cons a rest ih =>
    intro s s' hinv h
    simp only [run] at h
    cases hstep : step s a with
    | none => simp [hstep] at h
    | some s1 =>
      rw [hstep] at h
      exact ih s1 s' (step_inv urls workerCount s s1 a hinv hstep) h

theorem weights_append (ws vs : List WorkerState) : weights (ws ++ vs) = weights ws + weights vs := by
  induction ws with
  | nil => simp [weights]
  | cons w ws ih => simp [weights, ih]; omega

theorem weights_set (ws : List WorkerState) : ∀ (w : Nat) (old new : WorkerState),
    ws[w]? = some old → weights (ws.set w new) + old.weight = weights ws + new.weight := by
  induction ws with
  | nil => intro w old new h; simp at h
  | cons v vs ih =>
    intro w old new h
    cases w with
    | zero =>
      simp only [List.getElem?_cons_zero, Option.some.injEq] at h
      subst h
      simp only [List.set_cons_zero, weights]
      omega
    | succ w =>
      simp only [List.getElem?_cons_succ] at h
      have := ih w old new h
      simp only [List.set_cons_succ, weights]
      omega

theorem step_fuel (s s' : Pool) (a : Action) (h : step s a = some s') : s'.fuel < s.fuel := by
  cases a with
  | spawn =>
    simp only [step] at h
    split at h
    · simp only [Option.some.injEq] at h
      subst h
      simp only [Pool.fuel, weights_append, weights, WorkerState.weight]
      omega
    · simp at h
  | feed =>
    simp only [step] at h
    split at h
    · split at h
      · rename_i url rest hfeed
        simp only [Option.some.injEq] at h
        subst h
        simp only [Pool.fuel, hfeed, List.length_append, List.length_cons, List.length_nil]
        omega
      · simp at h
    · simp at h
  | closeJobs =>
    simp only [step] at h
    split at h
    · rename_i hg
      simp only [Option.some.injEq] at h
      subst h
      simp [Pool.fuel, hg.2.2]
    · simp at h
  | startCloser =>
    simp only [step] at h
    split at h
    · rename_i hg
      simp only [Option.some.injEq] at h
      subst h
      simp [Pool.fuel, hg.2]
    · simp at h
  | receive w =>
    simp only [step] at h
    split at h
    · rename_i url rest hget hjobs
      simp only [Option.some.injEq] at h
      subst h
      have hw := weights_set s.workers w _ (WorkerState.downloading url) hget
      simp only [WorkerState.weight] at hw
      simp only [Pool.fuel, hjobs, List.length_cons]
      omega
    · simp at h
  | download w err =>
    simp only [step] at h
    split at h
    · rename_i url hget
      simp only [Option.some.injEq] at h
      subst h
      have hw := weights_set s.workers w _ (WorkerState.sending { url := url, err := err }) hget
      simp only [WorkerState.weight] at hw
      simp only [Pool.fuel]
      omega
    · simp at h
  | send w =>
    simp only [step] at h
    split at h
    · rename_i res hget
      split at h
      · simp only [Option.some.injEq] at h
        subst h
        have hw := weights_set s.workers w _ WorkerState.receiving hget
        simp only [WorkerState.weight] at hw
        simp only [Pool.fuel, List.length_append, List.length_cons, List.length_nil]
        omega
      · simp at h
    · simp at h
  | exit w =>
    simp only [step] at h
    split at h
    · rename_i hget
      split at h
      · simp only [Option.some.injEq] at h
        subst h
        have hw := weights_set s.workers w _ WorkerState.exited hget
        simp only [WorkerState.weight] at hw
        simp only [Pool.fuel]
        omega
      · simp at h
    · simp at h
  | closeResults =>
    simp only [step] at h
    split at h
    · rename_i hg
      simp only [Option.some.injEq] at h
      subst h
      simp [Pool.fuel, hg.2.2]
    · simp at h
  | collect =>
    simp only [step] at h
    split at h
    · split at h
      · rename_i res rest hres
        simp only [Option.some.injEq] at h
        subst h
        simp only [Pool.fuel, hres, List.length_cons]
        omega
      · simp at h
    · simp at h
  | finish =>
    simp only [step] at h
    split at h
    · rename_i hg
      simp only [Option.some.injEq] at h
      subst h
      simp [Pool.fuel, hg.2.1]
    · simp at h

theorem run_fuel (acts : List Action) : ∀ (s s' : Pool), run s acts = some s' →
    acts.length + s'.fuel ≤ s.fuel := by
  induction acts with
  | nil =>
    intro s s' h
    simp only [run, Option.some.injEq] at h
    subst h
    simp
  | cons a rest ih =>
    intro s s' h
    simp only [run] at h
    cases hstep : step s a with
    | none => simp [hstep] at h
    | some s1 =>
      rw [hstep] at h
      have h1 := step_fuel s s1 a hstep
      have h2 := ih s1 s' h
      simp only [List.length_cons]
      omega

theorem running_pos (ws : List WorkerState) (h : 0 < running ws) :
    ∃ (w : Nat) (st : WorkerState), ws[w]? = some st ∧ st ≠ WorkerState.exited := by
  induction ws with
  | nil => simp [running] at h
  | cons v vs ih =>
    by_cases hv : v = WorkerState.exited
    · simp only [running, hv, if_true, zero_add] at h
      obtain ⟨w, st, hget, hst⟩ := ih h
      exact ⟨w + 1, st, by simpa using hget, hst⟩
    · exact ⟨0, v, by simp, hv⟩

theorem step_enabled (urls : List String) (workerCount : Int) (s : Pool)
    (hurls : 1 ≤ urls.length) (hinv : PoolInv urls workerCount s) (hnf : s.finished = false) :
    ∃ a, (step s a).isSome = true := by
  have hcard := congrArg Multiset.card hinv.conserve
  simp only [Pool.queued, Pool.inProgress, Pool.produced, Multiset.card_add, Multiset.coe_card,
    List.length_append, List.length_map] at hcard
  have hcap := hinv.capacity_eq
  by_cases hsp : 0 < s.toSpawn
  · exact ⟨Action.spawn, by simp [step, hsp]⟩
  have hsp0 : s.toSpawn = 0 := by omega
  cases hfeed : s.toFeed with
  | cons url rest =>
    have hjc : s.jobsClosed = false := by
      cases hj : s.jobsClosed with
      | false => rfl
      | true =>
        have := (hinv.closed_fed hj).2
        rw [hfeed] at this
        cases this
    have hlen : s.jobs.length < s.capacity := by
      rw [hfeed, List.length_cons] at hcard
      omega
    exact ⟨Action.feed, by simp [step, hsp0, hjc, hlen, hfeed]⟩
  | nil =>
    cases hjc : s.jobsClosed with
    | false => exact ⟨Action.closeJobs, by simp [step, hsp0, hfeed, hjc]⟩
    | true =>
      cases hcs : s.closerStarted with
      | false => exact ⟨Action.startCloser, by simp [step, hjc, hcs]⟩
      | true =>
        cases hres : s.results with
        | cons res rest =>
          exact ⟨Action.collect, by simp [step, hcs, hnf, hres]⟩
        | nil =>
          cases hrc : s.resultsClosed with
          | true =>
            exact ⟨Action.finish, by simp [step, hcs, hnf, hres, hrc]⟩
          | false =>
            by_cases hwg : s.wg = 0
            · exact ⟨Action.closeResults, by simp [step, hcs, hwg, hrc]⟩
            · obtain ⟨w, st, hget, hst⟩ := running_pos s.workers (by
                have := hinv.wg_eq
                omega)
              cases st with
              | exited => exact absurd rfl hst
              | receiving =>
                cases hjobs : s.jobs with
                | nil =>
                  exact ⟨Action.exit w, by simp [step, hget, hjobs, hjc]⟩
                | cons url rest =>
                  exact ⟨Action.receive w, by simp [step, hget, hjobs]⟩
              | downloading url =>
                exact ⟨Action.download w none, by simp [step, hget]⟩
              | sending res =>
                have hlen : s.results.length < s.capacity := by
                  rw [hres, List.length_nil]
                  omega
                exact ⟨Action.send w, by simp [step, hget, hrc, hlen]⟩

/-- Before the collector has left its loop the pool is never stuck: some
goroutine can take a step. -/
theorem pool_never_stuck (urls : List String) (workerCount : Int) (s0 s : Pool)
    (acts : List Action) (hstart : main urls workerCount = some s0)
    (hrun : run s0 acts = some s) (hnf : s.finished = false) :
    ∃ a, (step s a).isSome = true := by
  have hinv := run_inv urls workerCount acts s0 s (main_inv urls workerCount s0 hstart) hrun
  have hM : 1 ≤ urls.length := by
    unfold main at hstart
    split at hstart
    · simp at hstart
    · omega
  exact step_enabled urls workerCount s hM hinv hnf

/-- Every schedule is finite: the pool takes at most
`2 * workers + 5 * jobs + 4` steps. -/
theorem pool_schedule_bounded (urls : List String) (workerCount : Int) (s0 s : Pool)
    (acts : List Action) (hstart : main urls workerCount = some s0)
    (hrun : run s0 acts = some s) :
    acts.length ≤ 2 * workerCount.toNat + 5 * urls.length + 4 := by
  have h := run_fuel acts s0 s hrun
  unfold main at hstart
  split at hstart
  · simp at hstart
  · simp only [Option.some.injEq] at hstart
    subst hstart
    simp [Pool.fuel, weights] at h
    omega

/-- C7: in every state the pool reaches from `main` with at least one worker
(and, as `main` requires, at least one URL), under every interleaving of the
steps of `main`, the workers and the closer, the queued jobs, the jobs in
progress and the URLs of the results produced together are the multiset of
input URLs; once the results channel is closed every worker has returned,
nothing is queued or in progress and the results produced are one per input
URL; and once the collector has left its loop, the URLs of the results it
consumed are the multiset of input URLs, one result per job. -/
theorem pool_result_conservation (urls : List String) (workerCount : Int) (s0 s : Pool)
    (acts : List Action) (hN : 1 ≤ workerCount)
    (hstart : main urls workerCount = some s0) (hrun : run s0 acts = some s) :
    1 ≤ urls.length ∧
    (↑s.queued + ↑s.inProgress + ↑s.produced : Multiset String) = ↑urls ∧
    (s.resultsClosed = true →
      (∀ w ∈ s.workers, w = WorkerState.exited) ∧ (s.workers.length : Int) = workerCount ∧
      s.queued = [] ∧ s.inProgress = [] ∧ (↑s.produced : Multiset String) = ↑urls) ∧
    (s.finished = true →
      (↑(s.summary.map Result.url) : Multiset String) = ↑urls ∧
      s.summary.length = urls.length) := by
  have hinv := run_inv urls workerCount acts s0 s (main_inv urls workerCount s0 hstart) hrun
  have hM : 1 ≤ urls.length := by
    unfold main at hstart
    split at hstart
    · simp at hstart
    · omega
  have hclosed : s.resultsClosed = true →
      (∀ w ∈ s.workers, w = WorkerState.exited) ∧ (s.workers.length : Int) = workerCount ∧
      s.queued = [] ∧ s.inProgress = [] ∧ (↑s.produced : Multiset String) = ↑urls := by
    intro hrc
    obtain ⟨hcs, hwg0⟩ := hinv.closed_done hrc
    obtain ⟨hsp0, hfeed⟩ := hinv.closed_fed (hinv.closer_after hcs)
    obtain ⟨hheld, hall⟩ := running_zero s.workers (by rw [← hinv.wg_eq]; exact hwg0)
    have hlen : s.workers.length = workerCount.toNat := by
      have := hinv.spawned
      omega
    have hpos : 0 < s.workers.length := by omega
    have hmem : WorkerState.exited ∈ s.workers := by
      cases hw : s.workers with
      | nil => rw [hw] at hpos; simp at hpos
      | cons v vs =>
        have : v = WorkerState.exited := hall v (by rw [hw]; exact List.mem_cons_self v vs)
        rw [← this]
        exact List.mem_cons_self v vs
    have hjobs := (hinv.exited_drained hmem).1
    have hq : s.queued = [] := by simp [Pool.queued, hfeed, hjobs]
    have hp : s.inProgress = [] := hheld
    refine ⟨hall, by omega, hq, hp, ?_⟩
    have hc := hinv.conserve
    rw [hq, hp] at hc
    simpa using hc
  refine ⟨hM, hinv.conserve, hclosed, ?_⟩
  intro hfin
  obtain ⟨hrc, hres⟩ := hinv.finished_drained hfin
  have hprod := (hclosed hrc).2.2.2.2
  have hsum : (↑(s.summary.map Result.url) : Multiset String) = ↑urls := by
    simpa [Pool.produced, hres] using hprod
  refine ⟨hsum, ?_⟩
  have := congrArg Multiset.card hsum
  simpa using this

/-- Witness of C7: three jobs on two workers, run to the end by
`demoSchedule`; the summary holds the three URLs, in the order of
completion. -/
theorem pool_result_conservation_witness :
    (↑(demoEnd.summary.map Result.url) : Multiset String) = ↑demoUrls ∧
      demoEnd.summary.length = demoUrls.length :=
  (pool_result_conservation demoUrls 2 demoStart demoEnd demoSchedule (by decide) (by decide)
    (by decide)).2.2.2 rfl

end GopherGet
